import Mathlib

/-!
Verification of the PixelPipe core (`image_to_ansi.py`): the rasterizer that
turns a decoded pixel grid into a grid of ANSI-colored glyphs, and the effect
engine that re-colors such a grid.

Modelling conventions:
* Python strings are `List Char`; Python string slicing, `find`, `split` and
  concatenation are embedded as list functions below.
* Python machine floats are embedded as exact rationals `ℚ`; float literals
  such as `0.55` and `0.3` become the rationals `11/20` and `3/10`.
* `int(x)` on a float is truncation toward zero, embedded as `pyInt`.
* Python `//` on nonnegative operands agrees with `ℤ` division `/` (both
  floor), which is used where the source floor-divides by a positive literal.
* The image decoder and resampler are external collaborators (PIL): the
  rasterizer is embedded over an abstract resized pixel accessor
  `pix : ℕ → ℕ → ℤ × ℤ × ℤ` together with the source dimensions, exactly the
  data `image_to_ansi` reads after `img.resize(...).convert('RGB')`. Pillow's
  resize raises `ValueError: height and width must be > 0` when a target
  dimension is below 1; that uncaught, propagated error is embedded as the
  `none` result of `image_to_ansi`.
* Each random draw of the effect engine (`random.random`, `random.uniform`,
  `random.randint`, `random.choice`) is an explicit parameter, so theorems
  quantify over every outcome of the draws.
-/

/-- The escape character `\x1b` that opens every ANSI directive. -/
def ESC : Char := Char.ofNat 27

/-- The seven characters `\x1b[38;2;` opening a color directive
(the string tested by `char.startswith('\x1b[38;2;')` in every effect). -/
def colorDirHead : List Char := [ESC, '[', '3', '8', ';', '2', ';']

/-- The reset directive `\x1b[0m` appended after each rasterized row. -/
def resetDirective : List Char := [ESC, '[', '0', 'm']

/-- Decimal digits of a natural number, as Python `str` renders them. -/
def natToChars (n : ℕ) : List Char := Nat.toDigits 10 n

/-- Python `str` of an integer: a minus sign followed by the digits when
negative, the digits alone otherwise. -/
def intToChars (n : ℤ) : List Char :=
  if n < 0 then '-' :: natToChars n.natAbs else natToChars n.toNat

/-- Python `int(x)` on a float value: truncation toward zero. -/
def pyInt (q : ℚ) : ℤ := if 0 ≤ q then q.floor else -((-q).floor)

theorem pyInt_eq (q : ℚ) : pyInt q = if 0 ≤ q then ⌊q⌋ else ⌈q⌉ := by
  unfold pyInt
  split
  · rw [Rat.floor_def', Rat.floor_def]
  · rw [Rat.floor_def', ← Rat.floor_def, Int.floor_neg, neg_neg]

theorem pyInt_of_nonneg {q : ℚ} (h : 0 ≤ q) : pyInt q = ⌊q⌋ := by
  rw [pyInt_eq, if_pos h]

theorem pyInt_nonneg {q : ℚ} (h : 0 ≤ q) : 0 ≤ pyInt q := by
  rw [pyInt_of_nonneg h]
  exact Int.floor_nonneg.mpr h

theorem pyInt_intCast (n : ℤ) : pyInt ((n : ℤ) : ℚ) = n := by
  rw [pyInt_eq]
  split
  · exact Int.floor_intCast n
  · exact Int.ceil_intCast n

/-- The color directive `\x1b[38;2;R;G;Bm` exactly as the f-strings
`f"\x1b[38;2;{r};{g};{b}m..."` of the source render it. -/
def formatDirective (r g b : ℤ) : List Char :=
  colorDirHead ++ intToChars r ++ [';'] ++ intToChars g ++ [';'] ++ intToChars b ++ ['m']

/-- Embedding of `rgb_to_ansi(r, g, b)`: brightness is the Python floor
division `(r + g + b) // 3` (here `ℤ` division by the positive literal 3),
the glyph string is chosen from the fixed 5-bucket table, and the cell is
the color directive followed by the glyph string. The source file's four
non-space glyph literals are not the block characters: each is the
three-character mojibake string U+201A U+00F1 followed by U+00EB, U+00ED,
U+00EC or U+00E0 respectively (the UTF-8 bytes of the literals are
E2 80 9A C3 B1 C3 AB and so on), and those exact three-character strings
are what the embedding emits. -/
def rgb_to_ansi (r g b : ℤ) : List Char :=
  let brightness : ℤ := (r + g + b) / 3
  let glyph : List Char :=
    if brightness < 32 then [' ']
    else if brightness < 96 then ['‚', 'ñ', 'ë']
    else if brightness < 160 then ['‚', 'ñ', 'í']
    else if brightness < 224 then ['‚', 'ñ', 'ì']
    else ['‚', 'ñ', 'à']
  formatDirective r g b ++ glyph

/-- Embedding of `r = min(255, int(r * brightness))` from `image_to_ansi`. -/
def adjustChannel (bright : ℚ) (c : ℤ) : ℤ := min 255 (pyInt (c * bright))

/-- Embedding of `new_width = min(width, max_width)`. -/
def new_width (w maxW : ℕ) : ℕ := min w maxW

/-- Embedding of `new_height = int(aspect_ratio * new_width * 0.55)` with
`aspect_ratio = height / width` (Python true division, exact in `ℚ`). -/
def new_height (w h maxW : ℕ) : ℕ :=
  (pyInt ((h : ℚ) / (w : ℚ) * (new_width w maxW : ℕ) * (11 / 20))).toNat

/-- The per-cell body of the double loop of `image_to_ansi`: the grid of
glyph cells, row by row, before rows are joined. `pix x y` is the resized
pixel accessor `pixels.getpixel((x, y))`. -/
def ansiCellRows (w h : ℕ) (pix : ℕ → ℕ → ℤ × ℤ × ℤ) (maxW : ℕ) (bright : ℚ) :
    List (List (List Char)) :=
  (List.range (new_height w h maxW)).map fun y =>
    (List.range (new_width w maxW)).map fun x =>
      let p := pix x y
      rgb_to_ansi (adjustChannel bright p.1) (adjustChannel bright p.2.1)
        (adjustChannel bright p.2.2)

/-- Python `'\n'.join` on a list of strings. -/
def joinLines : List (List Char) → List Char
  | [] => []
  | [l] => l
  | l :: ls => l ++ '\n' :: joinLines ls

/-- Embedding of `image_to_ansi`. The function first calls
`img.resize((new_width, new_height))`; Pillow's resize raises
`ValueError: height and width must be > 0` when either target dimension is
below 1, and nothing in the function catches it, so that call propagates
the error before the row loop can run — embedded as `none`. On a
successful resize, every row is the concatenation of its cells followed by
the reset directive, and rows are newline-joined. -/
def image_to_ansi (w h : ℕ) (pix : ℕ → ℕ → ℤ × ℤ × ℤ) (maxW : ℕ) (bright : ℚ) :
    Option (List Char) :=
  if new_width w maxW < 1 ∨ new_height w h maxW < 1 then none
  else
    some (joinLines ((ansiCellRows w h pix maxW bright).map fun line =>
      line.flatten ++ resetDirective))

/-- Python `str.split('\n')`: always returns at least one (possibly empty)
piece, one more piece per newline. -/
def splitLines : List Char → List (List Char)
  | [] => [[]]
  | c :: cs =>
    if c = '\n' then [] :: splitLines cs
    else
      match splitLines cs with
      | [] => [[c]]
      | l :: ls => (c :: l) :: ls

theorem splitLines_ne_nil (l : List Char) : splitLines l ≠ [] := by
  cases l with
  | nil => simp [splitLines]
  | cons c cs =>
    unfold splitLines
    split
    · simp
    · split <;> simp

theorem joinLines_splitLines (l : List Char) : joinLines (splitLines l) = l := by
  induction l with
  | nil => simp [splitLines, joinLines]
  | cons c cs ih =>
    unfold splitLines
    split
    next hc =>
      subst hc
      cases hs : splitLines cs with
      | nil => exact absurd hs (splitLines_ne_nil cs)
      | cons s ss =>
        rw [hs] at ih
        simp [joinLines, ih]
    next hc =>
      cases hs : splitLines cs with
      | nil => exact absurd hs (splitLines_ne_nil cs)
      | cons s ss =>
        rw [hs] at ih
        cases ss with
        | nil => simp [joinLines] at ih ⊢; simp [ih]
        | cons t ts => simp [joinLines] at ih ⊢; simp [ih]

/-- The inner scanner of the shared row tokenizer: the piece of the row up
to and including the first `'m'` (what `line.find('m', i)` delimits),
together with the remainder; `none` when the row holds no `'m'`. -/
def breakAtM : List Char → Option (List Char × List Char)
  | [] => none
  | c :: cs =>
    if c = 'm' then some ([c], cs)
    else
      match breakAtM cs with
      | some (pre, post) => some (c :: pre, post)
      | none => none

theorem breakAtM_append {l pre post : List Char} (h : breakAtM l = some (pre, post)) :
    pre ++ post = l ∧ post.length < l.length := by
  induction l generalizing pre post with
  | nil => simp [breakAtM] at h
  | cons c cs ih =>
    unfold breakAtM at h
    split at h
    · simp at h
      obtain ⟨h1, h2⟩ := h
      subst h1 h2
      simp_all
    · cases hm : breakAtM cs with
      | none => rw [hm] at h; simp at h
      | some pr =>
        obtain ⟨p1, p2⟩ := pr
        rw [hm] at h
        simp at h
        obtain ⟨h1, h2⟩ := h
        obtain ⟨ha, hb⟩ := ih hm
        subst h1 h2
        constructor
        · simp [← ha]
        · simp; omega

/-- The shared row tokenizer of `generate_simple_effect`: on `\x1b[` take
the whole escape sequence through the next `'m'` as one token (falling back
to the single character when no `'m'` follows); otherwise take one
character. -/
def tokenize (l : List Char) : List (List Char) :=
  match l with
  | [] => []
  | c :: cs =>
    if c = ESC ∧ cs.head? = some '[' then
      match hm : breakAtM (c :: cs) with
      | some (tok, rest) =>
        have : rest.length < (c :: cs).length := (breakAtM_append hm).2
        tok :: tokenize rest
      | none => [c] :: tokenize cs
    else [c] :: tokenize cs
termination_by l.length

theorem tokenize_flatten (l : List Char) : (tokenize l).flatten = l := by
  induction l using tokenize.induct with
  | case1 => simp [tokenize]
  | case2 c cs h tok rest hm hlen ih =>
    rw [tokenize, if_pos h]
    split
    next tok2 rest2 heq =>
      rw [hm] at heq
      injection heq with hpair
      rw [Prod.mk.injEq] at hpair
      obtain ⟨h1, h2⟩ := hpair
      subst h1
      subst h2
      simp only [List.flatten_cons, ih]
      exact (breakAtM_append hm).1
    next heq => rw [hm] at heq; exact absurd heq (by simp)
  | case3 c cs h hm ih =>
    rw [tokenize]
    simp only [h, if_true]
    rw [hm]
    simp [ih]
  | case4 c cs h ih =>
    rw [tokenize]
    simp only [h, if_false]
    simp [ih]

/-- C4: splitting any row with the shared tokenizer into directive tokens
(`ESC[` through the next `m`, inclusive) and single-character tokens, then
concatenating all tokens in order, reproduces the original row exactly —
including rows with malformed or truncated escape sequences. -/
theorem claim_C4_tokenize_roundtrip (row : List Char) :
    (tokenize row).flatten = row :=
  tokenize_flatten row

/-- The glyph bucket table as the spec words it, on the rational brightness
`(r+g+b)/3` with inclusive lower and exclusive upper bucket bounds. Written
from the spec's table (not the code) for comparison with `rgb_to_ansi`. -/
def specGlyph (q : ℚ) : Char :=
  if q < 32 then ' '
  else if q < 96 then '░'
  else if q < 160 then '▒'
  else if q < 224 then '▓'
  else '█'

/-- C7 is a code bug: the spec's bucket table (and the repository's own
test, which asserts `'█' in rgb_to_ansi(255, 255, 255)` with the genuine
U+2588) calls for the block glyphs, but the source's glyph literals are
mojibake. At the fully-white input the code emits the directive followed
by the three characters U+201A U+00F1 U+00E0, not the full block the
bucket table names, so the repo test fails on this code. -/
theorem claim_C7_code_bug :
    rgb_to_ansi 255 255 255 = formatDirective 255 255 255 ++ ['\u201a', '\u00f1', '\u00e0'] ∧
    specGlyph (((255 + 255 + 255 : ℤ) : ℚ) / 3) = '█' ∧
    '█' ∉ rgb_to_ansi 255 255 255 := by
  refine ⟨?_, ?_, ?_⟩
  · decide
  · norm_num [specGlyph]
  · decide

theorem new_height_one : new_height 1 1 1 = 0 := by
  norm_num [new_height, new_width, pyInt_eq]

theorem new_height_20_5 : new_height 20 20 5 = 2 := by
  norm_num [new_height, new_width, pyInt_eq]
  decide

/-- C1 fails on the code: at a 20-by-20 source with maxWidth 5 (where the
resize succeeds, dimensions 5 by 2) the claimed row count
round(min(W,M)·(H/W)·0.55) = round(2.75) = 3, but the code computes
int(2.75) = 2 rows. -/
theorem claim_C1_counterexample :
    (ansiCellRows 20 20 (fun _ _ => (255, 255, 255)) 5 1).length = 2 ∧
    round (((new_width 20 5 : ℕ) : ℚ) * ((20 : ℚ) / (20 : ℚ)) * (11 / 20)) = 3 := by
  constructor
  · simp [ansiCellRows, new_height_20_5]
  · rw [round_eq]
    norm_num [new_width]

/-- C1 amended: whenever the computed row count int(min(W,M)·(H/W)·0.55)
is at least 1 (otherwise the resize raises and no grid is produced), the
rasterizer returns a grid with column count min(W, M) and row count
int(min(W, M) · (H/W) · 0.55), where int truncates toward zero (the code
applies Python `int`, not `round`, to the rational row count). -/
theorem claim_C1_amended (w h maxW : ℕ) (pix : ℕ → ℕ → ℤ × ℤ × ℤ) (bright : ℚ)
    (hw : 1 ≤ w) (hh : 1 ≤ h) (hmw : 1 ≤ maxW) (hpos : 1 ≤ new_height w h maxW) :
    image_to_ansi w h pix maxW bright =
      some (joinLines ((ansiCellRows w h pix maxW bright).map fun line =>
        line.flatten ++ resetDirective)) ∧
    (ansiCellRows w h pix maxW bright).length = new_height w h maxW ∧
    (new_height w h maxW : ℤ) =
      pyInt (((new_width w maxW : ℕ) : ℚ) * ((h : ℚ) / (w : ℚ)) * (11 / 20)) ∧
    ∀ row ∈ ansiCellRows w h pix maxW bright, row.length = new_width w maxW := by
  have hnw : 1 ≤ new_width w maxW := by
    simp only [new_width]
    omega
  refine ⟨?_, by simp [ansiCellRows], ?_, ?_⟩
  · rw [image_to_ansi, if_neg (by omega)]
  · have hq : 0 ≤ (h : ℚ) / (w : ℚ) * ((new_width w maxW : ℕ) : ℚ) * (11 / 20) := by positivity
    rw [new_height, Int.toNat_of_nonneg (pyInt_nonneg hq)]
    congr 1
    ring
  · intro row hrow
    simp only [ansiCellRows, List.mem_map, List.mem_range] at hrow
    obtain ⟨y, hy, rfl⟩ := hrow
    simp

/-- Witness for C1 amended at a 20-by-20 source with maxWidth 5 (computed
row count 2, so the resize succeeds). -/
theorem claim_C1_amended_witness :
    ((1:ℕ) ≤ 20 ∧ (1:ℕ) ≤ 20 ∧ (1:ℕ) ≤ 5 ∧ 1 ≤ new_height 20 20 5) ∧
    (image_to_ansi 20 20 (fun _ _ => (0, 0, 0)) 5 1 =
      some (joinLines ((ansiCellRows 20 20 (fun _ _ => (0, 0, 0)) 5 1).map fun line =>
        line.flatten ++ resetDirective)) ∧
      (ansiCellRows 20 20 (fun _ _ => (0, 0, 0)) 5 1).length = new_height 20 20 5 ∧
      (new_height 20 20 5 : ℤ) =
        pyInt (((new_width 20 5 : ℕ) : ℚ) * ((20 : ℚ) / (20 : ℚ)) * (11 / 20)) ∧
      ∀ row ∈ ansiCellRows 20 20 (fun _ _ => (0, 0, 0)) 5 1,
        row.length = new_width 20 5) :=
  ⟨⟨by norm_num, by norm_num, by norm_num, by rw [new_height_20_5]; norm_num⟩,
    claim_C1_amended 20 20 5 (fun _ _ => (0, 0, 0)) 1 (by norm_num) (by norm_num)
      (by norm_num) (by rw [new_height_20_5]; norm_num)⟩

/-- C2 fails on the code: for a 1-by-1 fully-white image with maxWidth 1
the computed row count is int(0.55) = 0, so `img.resize((1, 0))` raises
ValueError (embedded as `none`) before any row is built — the claimed
one-row grid directive, full block, reset is never produced. -/
theorem claim_C2_counterexample :
    image_to_ansi 1 1 (fun _ _ => (255, 255, 255)) 1 1 = none ∧
    (none : Option (List Char)) ≠
      some (formatDirective 255 255 255 ++ '█' :: resetDirective) := by
  constructor
  · rw [image_to_ansi, if_pos (Or.inr (by rw [new_height_one]; norm_num))]
  · simp

/-- C2 amended: rasterizing any 1-by-1 image with maxWidth 1 (any pixel
colors, any brightness) raises ValueError from `img.resize((1, 0))`
(embedded as `none`) and produces no grid at all, because the computed row
count int(1 · (1/1) · 0.55) is 0. -/
theorem claim_C2_amended (pix : ℕ → ℕ → ℤ × ℤ × ℤ) (bright : ℚ) :
    image_to_ansi 1 1 pix 1 bright = none := by
  rw [image_to_ansi, if_pos (Or.inr (by rw [new_height_one]; norm_num))]

/-- C10 fails on the code: at the 1-by-1 input with maxWidth 1 the
computed row count is 0 and the rasterizer raises in `img.resize((1, 0))`
(embedded as `none`); it does not return the empty string. -/
theorem claim_C10_counterexample :
    image_to_ansi 1 1 (fun _ _ => (0, 0, 0)) 1 1 = none ∧
    (none : Option (List Char)) ≠ some [] := by
  constructor
  · rw [image_to_ansi, if_pos (Or.inr (by rw [new_height_one]; norm_num))]
  · simp

/-- C10 amended: whenever the computed row count int(min(W,M)·(H/W)·0.55)
is zero, the rasterizer raises ValueError from
`img.resize((new_width, 0))` — Pillow rejects zero target dimensions, and
nothing catches the error — embedded as `none`: no rows, no directives, no
empty string. -/
theorem claim_C10_amended (w h maxW : ℕ) (pix : ℕ → ℕ → ℤ × ℤ × ℤ)
    (bright : ℚ) (hzero : new_height w h maxW = 0) :
    image_to_ansi w h pix maxW bright = none := by
  rw [image_to_ansi, if_pos (Or.inr (by omega))]

/-- Witness for C10 amended at the 1-by-1 image with maxWidth 1. -/
theorem claim_C10_amended_witness :
    new_height 1 1 1 = 0 ∧
    image_to_ansi 1 1 (fun _ _ => (0, 0, 0)) 1 1 = none :=
  ⟨new_height_one, claim_C10_amended 1 1 1 (fun _ _ => (0, 0, 0)) 1 new_height_one⟩

/-- C6 fails on the code: the scaling truncates rather than rounds
(channel 3 at brightness 0.5 gives 1, the claim's formula gives 2), and no
lower clamp to 0 exists (channel 255 at brightness -1 is emitted as -255). -/
theorem claim_C6_counterexample :
    adjustChannel (-1) 255 = -255 ∧ adjustChannel (-1) 255 < 0 ∧
    adjustChannel (1 / 2) 3 = 1 ∧ min 255 (round (((3 : ℤ) : ℚ) * (1 / 2))) = 2 := by
  have h1 : adjustChannel (-1) 255 = -255 := by
    unfold adjustChannel
    rw [show ((255 : ℤ) : ℚ) * (-1 : ℚ) = ((-255 : ℤ) : ℚ) by norm_num, pyInt_intCast]
    norm_num
  refine ⟨h1, by rw [h1]; norm_num, ?_, ?_⟩
  · norm_num [adjustChannel, pyInt_eq]
  · rw [round_eq]
    norm_num

/-- C6 amended: each emitted channel equals min(255, int(channel ·
brightnessFactor)) with int truncating toward zero; for a nonnegative
brightnessFactor the result lies in [0,255], but no lower clamp to 0 is
applied, so a negative factor emits negative channels (without crashing). -/
theorem claim_C6_amended (c : ℤ) (h0 : 0 ≤ c) (h255 : c ≤ 255) (bright : ℚ) :
    adjustChannel bright c = min 255 (pyInt ((c : ℚ) * bright)) ∧
    (0 ≤ bright → 0 ≤ adjustChannel bright c ∧ adjustChannel bright c ≤ 255) := by
  refine ⟨rfl, fun hb => ⟨?_, min_le_left _ _⟩⟩
  have hcb : (0 : ℚ) ≤ (c : ℚ) * bright := mul_nonneg (by exact_mod_cast h0) hb
  exact le_min (by norm_num) (pyInt_nonneg hcb)

/-- Witness for C6 amended at channel 100, brightness 2. -/
theorem claim_C6_amended_witness :
    ((0:ℤ) ≤ 100 ∧ (100:ℤ) ≤ 255) ∧
    (adjustChannel 2 100 = min 255 (pyInt (((100:ℤ) : ℚ) * 2)) ∧
      (0 ≤ (2:ℚ) → 0 ≤ adjustChannel 2 100 ∧ adjustChannel 2 100 ≤ 255)) :=
  ⟨⟨by norm_num, by norm_num⟩, claim_C6_amended 100 (by norm_num) (by norm_num) 2⟩

/-- ASCII whitespace accepted (and stripped) by Python `int(str)`. -/
def isSpaceCh (c : Char) : Bool :=
  c == ' ' || c == '\t' || c == '\n' || c == '\r' || c == Char.ofNat 11 || c == Char.ofNat 12

/-- Strip whitespace from both ends, as Python `int(str)` does first. -/
def stripSpaces (l : List Char) : List Char :=
  ((l.dropWhile isSpaceCh).reverse.dropWhile isSpaceCh).reverse

/-- Python digit grammar: no two adjacent underscores. -/
def underscoresOk : List Char → Bool
  | [] => true
  | '_' :: '_' :: _ => false
  | _ :: rest => underscoresOk rest

/-- Numeric value of a digit string, skipping grouping underscores. -/
def digitsVal (l : List Char) : ℕ :=
  l.foldl (fun acc c => if c.isDigit then acc * 10 + (c.toNat - 48) else acc) 0

/-- The unsigned part of Python `int(str)`: nonempty, all digits or
grouping underscores, starting and ending with a digit, never two
underscores in a row. -/
def natPart (l : List Char) : Option ℕ :=
  if l.isEmpty then none
  else if (l.all fun c => c.isDigit || c == '_') &&
      ((l.head?.map Char.isDigit).getD false) &&
      ((l.getLast?.map Char.isDigit).getD false) && underscoresOk l then
    some (digitsVal l)
  else none

/-- Python `int(str)`: strip whitespace, optional single sign, digits. -/
def pyStrToInt (s : List Char) : Option ℤ :=
  match stripSpaces s with
  | '+' :: rest => (natPart rest).map fun n => (n : ℤ)
  | '-' :: rest => (natPart rest).map fun n => -(n : ℤ)
  | t => (natPart t).map fun n => (n : ℤ)

/-- Python `str.split(sep)` for a one-character separator. -/
def splitOnChar (sep : Char) : List Char → List (List Char)
  | [] => [[]]
  | c :: cs =>
    if c = sep then [] :: splitOnChar sep cs
    else
      match splitOnChar sep cs with
      | [] => [[c]]
      | p :: ps => (c :: p) :: ps

def afterMAux : List Char → Option (List Char)
  | [] => none
  | c :: cs => if c = 'm' then some cs else afterMAux cs

/-- Python `char[char.find('m')+1:]`: everything after the first `'m'`,
or the whole string when no `'m'` occurs (`find` returns -1). -/
def afterM (l : List Char) : List Char := (afterMAux l).getD l

/-- The shared directive-payload parse of every effect:
`rgb_part = char[7:-1]`, then `rgb_part.split('m')[0]` when an `'m'`
remains, then `r, g, b = map(int, rgb_part.split(';'))`; `none` embeds the
caught `ValueError`/`IndexError` of a malformed payload. -/
def parsePayload (tok : List Char) : Option (ℤ × ℤ × ℤ) :=
  let rgbPart := ((tok.drop 7).dropLast).takeWhile fun c => c != 'm'
  match splitOnChar ';' rgbPart with
  | [a, b, c] =>
    match pyStrToInt a, pyStrToInt b, pyStrToInt c with
    | some vr, some vg, some vb => some (vr, vg, vb)
    | _, _, _ => none
  | _ => none

/-- The common shape of every effect's per-token step: a token that starts
with `\x1b[38;2;` and whose payload parses is re-emitted as the directive
for the recolored channels followed by the text after its first `'m'`;
every other token is appended unchanged. -/
def recolorTok (f : ℤ → ℤ → ℤ → ℤ × ℤ × ℤ) (tok : List Char) : List Char :=
  if colorDirHead.isPrefixOf tok then
    match parsePayload tok with
    | some (r, g, b) =>
      match f r g b with
      | (r2, g2, b2) => formatDirective r2 g2 b2 ++ afterM tok
    | none => tok
  else tok

/-- Embedding of `for i, char in enumerate(chars)` with one output element
appended per input token. -/
def mapEnumFrom {α β : Type} (f : ℕ → α → β) : ℕ → List α → List β
  | _, [] => []
  | i, t :: ts => f i t :: mapEnumFrom f (i + 1) ts

set_option maxRecDepth 8192 in
theorem pyStrToInt_natToChars : ∀ n : ℕ, n < 256 → pyStrToInt (natToChars n) = some (n : ℤ) := by
  decide

set_option maxRecDepth 8192 in
theorem natToChars_no_m_semi : ∀ n : ℕ, n < 256 → 'm' ∉ natToChars n ∧ ';' ∉ natToChars n := by
  decide

theorem intToChars_of_nonneg {n : ℤ} (h : 0 ≤ n) : intToChars n = natToChars n.toNat :=
  if_neg (not_lt.mpr h)

theorem drop7_append (X : List Char) : (colorDirHead ++ X).drop 7 = X := by
  have h : colorDirHead.length = 7 := rfl
  rw [← h, List.drop_left]

theorem splitOnChar_sep {A B : List Char} {sep : Char} (h : sep ∉ A) :
    splitOnChar sep (A ++ sep :: B) = A :: splitOnChar sep B := by
  induction A with
  | nil => simp [splitOnChar]
  | cons c cs ih =>
    simp only [List.mem_cons, not_or] at h
    obtain ⟨h1, h2⟩ := h
    simp only [List.cons_append, splitOnChar, List.append_eq]
    rw [if_neg fun hh => h1 hh.symm, ih h2]

theorem splitOnChar_no_sep {A : List Char} {sep : Char} (h : sep ∉ A) :
    splitOnChar sep A = [A] := by
  induction A with
  | nil => simp [splitOnChar]
  | cons c cs ih =>
    simp only [List.mem_cons, not_or] at h
    obtain ⟨h1, h2⟩ := h
    simp only [splitOnChar]
    rw [if_neg fun hh => h1 hh.symm, ih h2]

theorem takeWhile_no_m {X : List Char} (h : 'm' ∉ X) :
    (X.takeWhile fun c => c != 'm') = X := by
  induction X with
  | nil => simp
  | cons c cs ih =>
    simp only [List.mem_cons, not_or] at h
    obtain ⟨h1, h2⟩ := h
    simp only [List.takeWhile_cons]
    rw [if_pos (by simpa using fun hh => h1 hh.symm), ih h2]

theorem afterMAux_concat {X : List Char} (h : 'm' ∉ X) :
    afterMAux (X ++ ['m']) = some [] := by
  induction X with
  | nil => simp [afterMAux]
  | cons c cs ih =>
    simp only [List.mem_cons, not_or] at h
    obtain ⟨h1, h2⟩ := h
    simp only [List.cons_append, afterMAux, List.append_eq]
    rw [if_neg fun hh => h1 hh.symm, ih h2]

theorem formatDirective_assoc (r g b : ℤ) (hr0 : 0 ≤ r) (hg0 : 0 ≤ g) (hb0 : 0 ≤ b) :
    formatDirective r g b =
      colorDirHead ++
        ((natToChars r.toNat ++ (';' :: (natToChars g.toNat ++ (';' :: natToChars b.toNat))))
          ++ ['m']) := by
  simp [formatDirective, intToChars_of_nonneg hr0, intToChars_of_nonneg hg0,
    intToChars_of_nonneg hb0, List.append_assoc]

theorem parsePayload_formatDirective {r g b : ℤ}
    (hr0 : 0 ≤ r) (hr1 : r ≤ 255) (hg0 : 0 ≤ g) (hg1 : g ≤ 255)
    (hb0 : 0 ≤ b) (hb1 : b ≤ 255) :
    parsePayload (formatDirective r g b) = some (r, g, b) := by
  have hnr : r.toNat < 256 := by omega
  have hng : g.toNat < 256 := by omega
  have hnb : b.toNat < 256 := by omega
  have hMr := (natToChars_no_m_semi _ hnr).1
  have hSr := (natToChars_no_m_semi _ hnr).2
  have hMg := (natToChars_no_m_semi _ hng).1
  have hSg := (natToChars_no_m_semi _ hng).2
  have hMb := (natToChars_no_m_semi _ hnb).1
  have hSb := (natToChars_no_m_semi _ hnb).2
  have hmP : 'm' ∉ natToChars r.toNat ++
      (';' :: (natToChars g.toNat ++ (';' :: natToChars b.toNat))) := by
    simp only [List.mem_append, List.mem_cons, not_or]
    exact ⟨hMr, by decide, hMg, by decide, hMb⟩
  simp only [parsePayload, formatDirective_assoc r g b hr0 hg0 hb0, drop7_append,
    List.dropLast_concat, takeWhile_no_m hmP, splitOnChar_sep hSr, splitOnChar_sep hSg,
    splitOnChar_no_sep hSb, pyStrToInt_natToChars _ hnr, pyStrToInt_natToChars _ hng,
    pyStrToInt_natToChars _ hnb]
  rw [Int.toNat_of_nonneg hr0, Int.toNat_of_nonneg hg0, Int.toNat_of_nonneg hb0]

theorem afterM_formatDirective {r g b : ℤ}
    (hr0 : 0 ≤ r) (hr1 : r ≤ 255) (hg0 : 0 ≤ g) (hg1 : g ≤ 255)
    (hb0 : 0 ≤ b) (hb1 : b ≤ 255) :
    afterM (formatDirective r g b) = [] := by
  have hnr : r.toNat < 256 := by omega
  have hng : g.toNat < 256 := by omega
  have hnb : b.toNat < 256 := by omega
  have hMr := (natToChars_no_m_semi _ hnr).1
  have hMg := (natToChars_no_m_semi _ hng).1
  have hMb := (natToChars_no_m_semi _ hnb).1
  have hm2 : 'm' ∉ colorDirHead ++
      (natToChars r.toNat ++ (';' :: (natToChars g.toNat ++ (';' :: natToChars b.toNat)))) := by
    simp only [List.mem_append, List.mem_cons, not_or]
    exact ⟨by decide, hMr, by decide, hMg, by decide, hMb⟩
  rw [afterM, formatDirective_assoc r g b hr0 hg0 hb0, ← List.append_assoc,
    afterMAux_concat hm2]
  rfl

/-- The four corruption kinds of `apply_glitch_effect`. -/
inductive GlitchKind
  | color_shift
  | invert
  | corrupt
  | noise

/-- One glitch zone dict: half-open cell range [start, stop), a kind and an
intensity (drawn from uniform(0.5, 1.0) in the source). -/
structure GlitchZone where
  start : ℕ
  stop : ℕ
  kind : GlitchKind
  intensity : ℚ

/-- The random draws one glitch cell may consume: the three channel shifts
of color_shift, the corruption-color choice, and the shared noise value. -/
structure GlitchDraw where
  dR : ℤ
  dG : ℤ
  dB : ℤ
  corruptIdx : Fin 5
  noise : ℤ

/-- The fixed `corruption_colors` list of the source. -/
def corruption_colors : List (ℤ × ℤ × ℤ) :=
  [(255, 0, 255), (0, 255, 255), (255, 255, 0), (255, 0, 0), (0, 255, 0)]

/-- `random.choice(corruption_colors)` with the choice as an index. -/
def corruptColor (i : Fin 5) : ℤ × ℤ × ℤ :=
  corruption_colors.get ⟨i.val, by cases i with | mk v hv => simpa [corruption_colors] using hv⟩

/-- The first zone whose [start, stop) range holds cell `i` (the
zone-scanning loop with `break`). -/
def zoneAt (zones : List GlitchZone) (i : ℕ) : Option GlitchZone :=
  zones.find? fun z => decide (z.start ≤ i) && decide (i < z.stop)

/-- The per-cell recoloring of `apply_glitch_effect` for a cell inside zone
`z`, with the cell's random draws `d`. -/
def glitchRecolor (z : GlitchZone) (d : GlitchDraw) (r g b : ℤ) : ℤ × ℤ × ℤ :=
  match z.kind with
  | .color_shift =>
    (min 255 (max 0 (r + d.dR)), min 255 (max 0 (g + d.dG)), min 255 (max 0 (b + d.dB)))
  | .invert => (255 - r, 255 - g, 255 - b)
  | .corrupt => corruptColor d.corruptIdx
  | .noise =>
    (min 255 (max 0 (pyInt ((r : ℚ) * (3 / 10)) + d.noise)),
     min 255 (max 0 (pyInt ((g : ℚ) * (3 / 10)) + d.noise)),
     min 255 (max 0 (pyInt ((b : ℚ) * (3 / 10)) + d.noise)))

/-- The `result` list of `apply_glitch_effect`: one output token per input
token; only directive tokens inside a zone are recolored. -/
def apply_glitch_effect_tokens (zones : List GlitchZone) (draw : ℕ → GlitchDraw)
    (chars : List (List Char)) : List (List Char) :=
  mapEnumFrom (fun i tok =>
    match zoneAt zones i with
    | some z => recolorTok (glitchRecolor z (draw i)) tok
    | none => tok) 0 chars

/-- `apply_glitch_effect` returns `''.join(result)`. -/
def apply_glitch_effect (zones : List GlitchZone) (draw : ℕ → GlitchDraw)
    (chars : List (List Char)) : List Char :=
  (apply_glitch_effect_tokens zones draw chars).flatten

/-- `intensity = max(0.3, 1.0 - (row / total_rows))` of the matrix effect. -/
def matrix_intensity (row total : ℕ) : ℚ := max (3 / 10) (1 - (row : ℚ) / (total : ℚ))

/-- The per-cell recoloring of `apply_matrix_effect`: brightness-scaled
green with the uniform(0.7, 1.3) draw `u`, clamped, then overridden to 255
for a highlight draw. -/
def matrixRecolor (intensity u : ℚ) (hi : Bool) (r g b : ℤ) : ℤ × ℤ × ℤ :=
  let brightness : ℚ := ((r + g + b : ℤ) : ℚ) / 3
  let green := min 255 (max 0 (pyInt (brightness * intensity * u)))
  (0, if hi then 255 else green, 0)

def apply_matrix_effect_tokens (row total : ℕ) (u : ℕ → ℚ) (hi : ℕ → Bool)
    (chars : List (List Char)) : List (List Char) :=
  mapEnumFrom (fun i tok =>
    recolorTok (matrixRecolor (matrix_intensity row total) (u i) (hi i)) tok) 0 chars

def apply_matrix_effect (row total : ℕ) (u : ℕ → ℚ) (hi : ℕ → Bool)
    (chars : List (List Char)) : List Char :=
  (apply_matrix_effect_tokens row total u hi chars).flatten

/-- `heat = 1.0 - (row / total_rows)` of the fire effect. -/
def fire_heat (row total : ℕ) : ℚ := 1 - (row : ℚ) / (total : ℚ)

/-- The heat-tier color selection of `apply_fire_effect` (thresholds 0.7
and 0.4 on heat). -/
def fireTier (heat brightness : ℚ) : ℤ × ℤ × ℤ :=
  if 7 / 10 < heat then
    (min 255 (pyInt (brightness * (6 / 5))), min 255 (pyInt (brightness * (11 / 10))),
      pyInt (brightness * (3 / 10)))
  else if 2 / 5 < heat then
    (min 255 (pyInt (brightness * (13 / 10))), pyInt (brightness * (3 / 5)),
      pyInt (brightness * (1 / 10)))
  else (pyInt (brightness * (4 / 5)), pyInt (brightness * (1 / 5)), 0)

/-- The random flicker step of `apply_fire_effect`: every channel times
the uniform(0.8, 1.2) draw, truncated and capped at 255. -/
def fireFlickerStep (flicker : ℚ) (p : ℤ × ℤ × ℤ) : ℤ × ℤ × ℤ :=
  (min 255 (pyInt ((p.1 : ℚ) * flicker)), min 255 (pyInt ((p.2.1 : ℚ) * flicker)),
    min 255 (pyInt ((p.2.2 : ℚ) * flicker)))

/-- The per-cell recoloring of `apply_fire_effect`: the three heat tiers on
the brightness `(r+g+b)/3`, then the flicker step. -/
def fireRecolor (heat flicker : ℚ) (r g b : ℤ) : ℤ × ℤ × ℤ :=
  fireFlickerStep flicker (fireTier heat (((r + g + b : ℤ) : ℚ) / 3))

def apply_fire_effect_tokens (row total : ℕ) (flicker : ℕ → ℚ)
    (chars : List (List Char)) : List (List Char) :=
  mapEnumFrom (fun i tok =>
    recolorTok (fireRecolor (fire_heat row total) (flicker i)) tok) 0 chars

def apply_fire_effect (row total : ℕ) (flicker : ℕ → ℚ)
    (chars : List (List Char)) : List Char :=
  (apply_fire_effect_tokens row total flicker chars).flatten

/-- The per-channel weights of `neon_palettes[row % 5]`. -/
def neonPaletteWeights (row : ℕ) : ℤ × ℤ × ℤ :=
  match row % 5 with
  | 0 => (100, 200, 255)
  | 1 => (255, 50, 150)
  | 2 => (50, 255, 100)
  | 3 => (200, 50, 255)
  | _ => (255, 150, 50)

/-- The fixed `bleed_colors` list of the neon effect. -/
def bleed_colors : List (ℤ × ℤ × ℤ) := [(0, 255, 255), (255, 0, 255), (255, 255, 0)]

def bleedColor (i : Fin 3) : ℤ × ℤ × ℤ :=
  bleed_colors.get ⟨i.val, by cases i with | mk v hv => simpa [bleed_colors] using hv⟩

/-- `boost_factor = (min_neon_brightness * 3) / max(1, r + g + b)`. -/
def neonBoost (s : ℤ) : ℚ := 240 / ((max 1 s : ℤ) : ℚ)

/-- Lines 464-475 of the source: the minimum-total-brightness step of the
neon effect (boost when the channel sum is below 240, truncating each
product and capping at 255) followed by the final clamp of every channel
to [0, 255]. -/
def neonFloorClamp (r g b : ℤ) : ℤ × ℤ × ℤ :=
  let s := r + g + b
  let p : ℤ × ℤ × ℤ :=
    if s < 240 then
      (min 255 (pyInt ((r : ℚ) * neonBoost s)), min 255 (pyInt ((g : ℚ) * neonBoost s)),
        min 255 (pyInt ((b : ℚ) * neonBoost s)))
    else (r, g, b)
  (max 0 (min 255 p.1), max 0 (min 255 p.2.1), max 0 (min 255 p.2.2))

/-- The per-cell recoloring of `apply_neon_effect`. `pulse` stands for the
float `0.8 + 0.4*sin(row*0.1)` (transcendental, so carried as a parameter);
`glow` is the optional uniform(1.2, 1.8) boost draw and `bleed` the
optional bleed-color choice. -/
def neonRecolor (row : ℕ) (pulse : ℚ) (glow : Option ℚ) (bleed : Option (Fin 3))
    (r g b : ℤ) : ℤ × ℤ × ℤ :=
  let brightness : ℚ := ((r + g + b : ℤ) : ℚ) / 3 / 255
  let w := neonPaletteWeights row
  let base : ℤ × ℤ × ℤ :=
    (pyInt (brightness * (w.1 : ℚ) * pulse), pyInt (brightness * (w.2.1 : ℚ) * pulse),
      pyInt (brightness * (w.2.2 : ℚ) * pulse))
  let afterGlow : ℤ × ℤ × ℤ :=
    match glow with
    | some f =>
      (min 255 (pyInt ((base.1 : ℚ) * f)), min 255 (pyInt ((base.2.1 : ℚ) * f)),
        min 255 (pyInt ((base.2.2 : ℚ) * f)))
    | none => base
  let afterBleed : ℤ × ℤ × ℤ :=
    match bleed with
    | some j =>
      let bc := bleedColor j
      (min 255 ((afterGlow.1 + bc.1) / 2), min 255 ((afterGlow.2.1 + bc.2.1) / 2),
        min 255 ((afterGlow.2.2 + bc.2.2) / 2))
    | none => afterGlow
  neonFloorClamp afterBleed.1 afterBleed.2.1 afterBleed.2.2

def apply_neon_effect_tokens (row : ℕ) (pulse : ℚ) (glow : ℕ → Option ℚ)
    (bleed : ℕ → Option (Fin 3)) (chars : List (List Char)) : List (List Char) :=
  mapEnumFrom (fun i tok => recolorTok (neonRecolor row pulse (glow i) (bleed i)) tok) 0 chars

def apply_neon_effect (row : ℕ) (pulse : ℚ) (glow : ℕ → Option ℚ)
    (bleed : ℕ → Option (Fin 3)) (chars : List (List Char)) : List Char :=
  (apply_neon_effect_tokens row pulse glow bleed chars).flatten

/-- Python float `x % m` for positive `m`: `x - m * floor(x / m)`. -/
def fmod (x m : ℚ) : ℚ := x - m * ((x / m).floor : ℤ)

/-- Embedding of `rgb_to_hsv`, with the hue kept in degrees: the source
converts the degree hue to radians at the end (`h * pi / 180`) and
`hsv_to_rgb` converts straight back (`h * 180 / pi`), so the factor pi/180
cancels and is factored out of the embedding. -/
def rgb_to_hsv (r g b : ℤ) : ℚ × ℚ × ℚ :=
  let r1 : ℚ := (r : ℚ) / 255
  let g1 : ℚ := (g : ℚ) / 255
  let b1 : ℚ := (b : ℚ) / 255
  let maxV := max r1 (max g1 b1)
  let minV := min r1 (min g1 b1)
  let d := maxV - minV
  let h :=
    if d = 0 then 0
    else if maxV = r1 then fmod (60 * ((g1 - b1) / d) + 360) 360
    else if maxV = g1 then fmod (60 * ((b1 - r1) / d) + 120) 360
    else fmod (60 * ((r1 - g1) / d) + 240) 360
  let s := if maxV = 0 then 0 else d / maxV
  (h, s, maxV)

/-- Embedding of `hsv_to_rgb` with the hue in degrees (see `rgb_to_hsv`). -/
def hsv_to_rgb (h s v : ℚ) : ℤ × ℤ × ℤ :=
  let c := v * s
  let x := c * (1 - |fmod (h / 60) 2 - 1|)
  let m := v - c
  let rgb1 : ℚ × ℚ × ℚ :=
    if 0 ≤ h ∧ h < 60 then (c, x, 0)
    else if 60 ≤ h ∧ h < 120 then (x, c, 0)
    else if 120 ≤ h ∧ h < 180 then (0, c, x)
    else if 180 ≤ h ∧ h < 240 then (0, x, c)
    else if 240 ≤ h ∧ h < 300 then (x, 0, c)
    else (c, 0, x)
  (max 0 (min 255 (pyInt ((rgb1.1 + m) * 255))),
   max 0 (min 255 (pyInt ((rgb1.2.1 + m) * 255))),
   max 0 (min 255 (pyInt ((rgb1.2.2 + m) * 255))))

/-- The per-cell recoloring of `apply_rainbow_wave`. `shiftDeg` stands for
the degree value of the radian shift `wave_offset + i*0.1` (the factor
180/pi of the radian-degree round trip is absorbed into the parameter). -/
def rainbowRecolor (shiftDeg : ℚ) (r g b : ℤ) : ℤ × ℤ × ℤ :=
  let hsv := rgb_to_hsv r g b
  hsv_to_rgb (fmod (hsv.1 + shiftDeg) 360) hsv.2.1 hsv.2.2

def apply_rainbow_wave_tokens (shiftDeg : ℕ → ℚ) (chars : List (List Char)) :
    List (List Char) :=
  mapEnumFrom (fun i tok => recolorTok (rainbowRecolor (shiftDeg i)) tok) 0 chars

def apply_rainbow_wave (shiftDeg : ℕ → ℚ) (chars : List (List Char)) : List Char :=
  (apply_rainbow_wave_tokens shiftDeg chars).flatten

/-- All random draws (and transcendental row constants) one call of
`generate_simple_effect` may consume, indexed by row and cell. -/
structure EffectOracle where
  rainbowShift : ℕ → ℕ → ℚ
  glitchZones : ℕ → List GlitchZone
  glitchDraw : ℕ → ℕ → GlitchDraw
  matrixU : ℕ → ℕ → ℚ
  matrixHi : ℕ → ℕ → Bool
  fireFlicker : ℕ → ℕ → ℚ
  neonPulse : ℕ → ℚ
  neonGlow : ℕ → ℕ → Option ℚ
  neonBleed : ℕ → ℕ → Option (Fin 3)

/-- Embedding of `generate_simple_effect`: split into lines, tokenize each
line, dispatch on the effect selector (any value outside 0..4 re-joins the
tokens unchanged), and newline-join the transformed lines. -/
def generate_simple_effect (o : EffectOracle) (ansi_art : List Char)
    (effect_type : ℤ) : List Char :=
  let lines := splitLines ansi_art
  joinLines (mapEnumFrom (fun y line =>
    let chars := tokenize line
    if effect_type = 0 then apply_rainbow_wave (o.rainbowShift y) chars
    else if effect_type = 1 then apply_glitch_effect (o.glitchZones y) (o.glitchDraw y) chars
    else if effect_type = 2 then
      apply_matrix_effect y lines.length (o.matrixU y) (o.matrixHi y) chars
    else if effect_type = 3 then apply_fire_effect y lines.length (o.fireFlicker y) chars
    else if effect_type = 4 then
      apply_neon_effect y (o.neonPulse y) (o.neonGlow y) (o.neonBleed y) chars
    else chars.flatten) 0 lines)

theorem mapEnumFrom_congr {α β : Type} (f : ℕ → α → β) (g : α → β)
    (h : ∀ i a, f i a = g a) : ∀ (n : ℕ) (l : List α), mapEnumFrom f n l = l.map g := by
  intro n l
  induction l generalizing n with
  | nil => rfl
  | cons a as ih => simp [mapEnumFrom, h, ih]

/-- C3: for every input grid and every selector outside 0..4 (including -1
and any out-of-range value), `generate_simple_effect` returns the input
unchanged byte-for-byte, whatever the random draws. -/
theorem claim_C3_unknown_selector_identity (o : EffectOracle) (g : List Char) (t : ℤ)
    (ht : t ∉ ([0, 1, 2, 3, 4] : List ℤ)) :
    generate_simple_effect o g t = g := by
  simp only [List.mem_cons, List.not_mem_nil, or_false, not_or] at ht
  obtain ⟨h0, h1, h2, h3, h4⟩ := ht
  simp only [generate_simple_effect]
  rw [mapEnumFrom_congr _ (fun line => (tokenize line).flatten)
    (fun i a => by simp only [if_neg h0, if_neg h1, if_neg h2, if_neg h3, if_neg h4])]
  rw [List.map_congr_left fun a _ => tokenize_flatten a, List.map_id', joinLines_splitLines]

/-- A concrete all-trivial draw oracle, for instantiating theorems. -/
def trivialOracle : EffectOracle :=
  ⟨fun _ _ => 0, fun _ => [], fun _ _ => ⟨0, 0, 0, 0, 0⟩, fun _ _ => 1, fun _ _ => false,
    fun _ _ => 1, fun _ => 1, fun _ _ => none, fun _ _ => none⟩

/-- A small two-row sample grid: one red cell per row. -/
def sampleArt : List Char :=
  rgb_to_ansi 255 0 0 ++ resetDirective ++ '\n' :: (rgb_to_ansi 0 255 0 ++ resetDirective)

/-- Witness for C3 at selector -1 on a concrete grid. -/
theorem claim_C3_unknown_selector_identity_witness :
    ((-1 : ℤ) ∉ ([0, 1, 2, 3, 4] : List ℤ)) ∧
    generate_simple_effect trivialOracle sampleArt (-1) = sampleArt :=
  ⟨by decide, claim_C3_unknown_selector_identity trivialOracle sampleArt (-1) (by decide)⟩

/-- Three channel values all within [0, 255]. -/
def chanBounds (p : ℤ × ℤ × ℤ) : Prop :=
  0 ≤ p.1 ∧ p.1 ≤ 255 ∧ 0 ≤ p.2.1 ∧ p.2.1 ≤ 255 ∧ 0 ≤ p.2.2 ∧ p.2.2 ≤ 255

/-- A well-formed grid token: if it looks like a color directive then it is
the canonical rendering of channels in [0, 255]. -/
def wellFormedTok (t : List Char) : Prop :=
  colorDirHead.isPrefixOf t = true →
    ∃ p : ℤ × ℤ × ℤ, chanBounds p ∧ t = formatDirective p.1 p.2.1 p.2.2

/-- Structural stability of one output token against its input token: a
non-directive token is unchanged, a directive token becomes a directive
whose three channels lie in [0, 255]. -/
def tokenStable (t u : List Char) : Prop :=
  (¬ colorDirHead.isPrefixOf t = true → u = t) ∧
  (colorDirHead.isPrefixOf t = true →
    ∃ p : ℤ × ℤ × ℤ, chanBounds p ∧ u = formatDirective p.1 p.2.1 p.2.2)

theorem tokenStable_self {t : List Char} (h : wellFormedTok t) : tokenStable t t :=
  ⟨fun _ => rfl, h⟩

theorem recolorTok_stable {f : ℤ → ℤ → ℤ → ℤ × ℤ × ℤ} {t : List Char}
    (hwf : wellFormedTok t)
    (hf : ∀ r g b : ℤ, 0 ≤ r → r ≤ 255 → 0 ≤ g → g ≤ 255 → 0 ≤ b → b ≤ 255 →
      chanBounds (f r g b)) :
    tokenStable t (recolorTok f t) := by
  by_cases hp : colorDirHead.isPrefixOf t = true
  · obtain ⟨⟨r, g, b⟩, hbd, rfl⟩ := hwf hp
    obtain ⟨hr0, hr1, hg0, hg1, hb0, hb1⟩ := hbd
    refine ⟨fun hn => absurd hp hn, fun _ => ?_⟩
    rcases hfv : f r g b with ⟨r2, g2, b2⟩
    have hb2 := hf r g b hr0 hr1 hg0 hg1 hb0 hb1
    rw [hfv] at hb2
    refine ⟨(r2, g2, b2), hb2, ?_⟩
    simp only [recolorTok, if_pos hp,
      parsePayload_formatDirective hr0 hr1 hg0 hg1 hb0 hb1, hfv,
      afterM_formatDirective hr0 hr1 hg0 hg1 hb0 hb1, List.append_nil]
  · refine ⟨fun _ => ?_, fun hp2 => absurd hp2 hp⟩
    simp only [recolorTok, if_neg hp]

theorem mapEnumFrom_forall₂ {P : List Char → List Char → Prop}
    {f : ℕ → List Char → List Char} :
    ∀ toks : List (List Char), (∀ i t, t ∈ toks → P t (f i t)) →
      ∀ n, List.Forall₂ P toks (mapEnumFrom f n toks) := by
  intro toks
  induction toks with
  | nil => intro _ _; exact List.Forall₂.nil
  | cons a as ih =>
    intro h n
    exact List.Forall₂.cons (h n a (by simp))
      (ih (fun i t ht => h i t (by simp [ht])) (n + 1))

theorem corruptColor_bounds : ∀ i : Fin 5, chanBounds (corruptColor i) := by
  unfold chanBounds
  decide

theorem glitchRecolor_bounds (z : GlitchZone) (d : GlitchDraw) {r g b : ℤ}
    (hr0 : 0 ≤ r) (hr1 : r ≤ 255) (hg0 : 0 ≤ g) (hg1 : g ≤ 255)
    (hb0 : 0 ≤ b) (hb1 : b ≤ 255) :
    chanBounds (glitchRecolor z d r g b) := by
  cases hz : z.kind
  all_goals simp only [glitchRecolor, hz, chanBounds]
  · exact ⟨by omega, by omega, by omega, by omega, by omega, by omega⟩
  · exact ⟨by omega, by omega, by omega, by omega, by omega, by omega⟩
  · exact corruptColor_bounds d.corruptIdx
  · exact ⟨by omega, by omega, by omega, by omega, by omega, by omega⟩

theorem matrixRecolor_bounds (intensity u : ℚ) (hi : Bool) (r g b : ℤ) :
    chanBounds (matrixRecolor intensity u hi r g b) := by
  cases hi
  all_goals simp only [matrixRecolor, chanBounds, Bool.false_eq_true, if_true, if_false]
  · exact ⟨by omega, by omega, by omega, by omega, by omega, by omega⟩
  · exact ⟨by omega, by omega, by omega, by omega, by omega, by omega⟩

theorem fireTier_nonneg (heat : ℚ) {brightness : ℚ} (hb : 0 ≤ brightness) :
    0 ≤ (fireTier heat brightness).1 ∧ 0 ≤ (fireTier heat brightness).2.1 ∧
      0 ≤ (fireTier heat brightness).2.2 := by
  have h1 : ∀ c : ℚ, 0 ≤ c → 0 ≤ pyInt (brightness * c) :=
    fun c hc => pyInt_nonneg (mul_nonneg hb hc)
  unfold fireTier
  split_ifs
  · refine ⟨?_, ?_, ?_⟩ <;> dsimp only
    · have := h1 (6 / 5) (by norm_num); omega
    · have := h1 (11 / 10) (by norm_num); omega
    · exact h1 (3 / 10) (by norm_num)
  · refine ⟨?_, ?_, ?_⟩ <;> dsimp only
    · have := h1 (13 / 10) (by norm_num); omega
    · exact h1 (3 / 5) (by norm_num)
    · exact h1 (1 / 10) (by norm_num)
  · refine ⟨?_, ?_, ?_⟩ <;> dsimp only
    · exact h1 (4 / 5) (by norm_num)
    · exact h1 (1 / 5) (by norm_num)
    · exact le_refl 0

theorem fireRecolor_bounds (heat : ℚ) {flicker : ℚ} (hf : 0 ≤ flicker) {r g b : ℤ}
    (hr0 : 0 ≤ r) (hg0 : 0 ≤ g) (hb0 : 0 ≤ b) :
    chanBounds (fireRecolor heat flicker r g b) := by
  have hbr : (0 : ℚ) ≤ ((r + g + b : ℤ) : ℚ) / 3 := by
    apply div_nonneg _ (by norm_num)
    exact_mod_cast by omega
  obtain ⟨h1, h2, h3⟩ := fireTier_nonneg heat hbr
  unfold fireRecolor fireFlickerStep
  have k : ∀ x : ℤ, 0 ≤ x → 0 ≤ pyInt ((x : ℚ) * flicker) :=
    fun x hx => pyInt_nonneg (mul_nonneg (by exact_mod_cast hx) hf)
  refine ⟨?_, ?_, ?_, ?_, ?_, ?_⟩ <;> dsimp only
  · have := k _ h1; omega
  · omega
  · have := k _ h2; omega
  · omega
  · have := k _ h3; omega
  · omega

theorem neonFloorClamp_bounds (a b c : ℤ) : chanBounds (neonFloorClamp a b c) := by
  by_cases hc : a + b + c < 240
  · simp only [neonFloorClamp, if_pos hc]
    refine ⟨?_, ?_, ?_, ?_, ?_, ?_⟩ <;> dsimp only <;> omega
  · simp only [neonFloorClamp, if_neg hc]
    refine ⟨?_, ?_, ?_, ?_, ?_, ?_⟩ <;> dsimp only <;> omega

theorem neonRecolor_bounds (row : ℕ) (pulse : ℚ) (glow : Option ℚ)
    (bleed : Option (Fin 3)) (r g b : ℤ) :
    chanBounds (neonRecolor row pulse glow bleed r g b) := by
  simp only [neonRecolor]
  exact neonFloorClamp_bounds _ _ _

/-- C5: on a well-formed glyph grid row, for each of the glitch, matrix,
fire and neon transforms and every outcome of the random draws, the output
has one token per input token; every non-directive token (glyph characters
and reset directives) is byte-identical to the input token at its position,
and every directive token becomes a directive whose three channels lie in
[0, 255]. -/
theorem claim_C5_structural_stability (tokens : List (List Char))
    (hwf : ∀ t ∈ tokens, wellFormedTok t) (row total : ℕ)
    (zones : List GlitchZone) (draw : ℕ → GlitchDraw) (u : ℕ → ℚ) (hi : ℕ → Bool)
    (flicker : ℕ → ℚ) (hfl : ∀ i, 4 / 5 ≤ flicker i ∧ flicker i ≤ 6 / 5)
    (pulse : ℚ) (glow : ℕ → Option ℚ) (bleed : ℕ → Option (Fin 3)) :
    List.Forall₂ tokenStable tokens (apply_glitch_effect_tokens zones draw tokens) ∧
    List.Forall₂ tokenStable tokens (apply_matrix_effect_tokens row total u hi tokens) ∧
    List.Forall₂ tokenStable tokens (apply_fire_effect_tokens row total flicker tokens) ∧
    List.Forall₂ tokenStable tokens (apply_neon_effect_tokens row pulse glow bleed tokens) := by
  refine ⟨?_, ?_, ?_, ?_⟩
  · unfold apply_glitch_effect_tokens
    refine mapEnumFrom_forall₂ tokens (fun i t ht => ?_) 0
    cases hz : zoneAt zones i with
    | some z =>
      exact recolorTok_stable (hwf t ht)
        fun r g b h1 h2 h3 h4 h5 h6 => glitchRecolor_bounds z (draw i) h1 h2 h3 h4 h5 h6
    | none => exact tokenStable_self (hwf t ht)
  · unfold apply_matrix_effect_tokens
    refine mapEnumFrom_forall₂ tokens (fun i t ht => ?_) 0
    exact recolorTok_stable (hwf t ht)
      fun r g b _ _ _ _ _ _ => matrixRecolor_bounds (matrix_intensity row total) (u i) (hi i) r g b
  · unfold apply_fire_effect_tokens
    refine mapEnumFrom_forall₂ tokens (fun i t ht => ?_) 0
    exact recolorTok_stable (hwf t ht)
      fun r g b h1 _ h3 _ h5 _ =>
        fireRecolor_bounds (fire_heat row total) (le_trans (by norm_num) (hfl i).1) h1 h3 h5
  · unfold apply_neon_effect_tokens
    refine mapEnumFrom_forall₂ tokens (fun i t ht => ?_) 0
    exact recolorTok_stable (hwf t ht)
      fun r g b _ _ _ _ _ _ => neonRecolor_bounds row pulse (glow i) (bleed i) r g b

/-- Witness for C5 on the row [directive(10,20,30), glyph] with all-trivial
draws. -/
theorem claim_C5_structural_stability_witness :
    (∀ t ∈ ([formatDirective 10 20 30, ['X']] : List (List Char)), wellFormedTok t) ∧
    (∀ i : ℕ, 4 / 5 ≤ (fun _ : ℕ => (1 : ℚ)) i ∧ (fun _ : ℕ => (1 : ℚ)) i ≤ 6 / 5) ∧
    (List.Forall₂ tokenStable [formatDirective 10 20 30, ['X']]
        (apply_glitch_effect_tokens [] (fun _ => ⟨0, 0, 0, 0, 0⟩)
          [formatDirective 10 20 30, ['X']]) ∧
      List.Forall₂ tokenStable [formatDirective 10 20 30, ['X']]
        (apply_matrix_effect_tokens 0 1 (fun _ => 1) (fun _ => false)
          [formatDirective 10 20 30, ['X']]) ∧
      List.Forall₂ tokenStable [formatDirective 10 20 30, ['X']]
        (apply_fire_effect_tokens 0 1 (fun _ => 1) [formatDirective 10 20 30, ['X']]) ∧
      List.Forall₂ tokenStable [formatDirective 10 20 30, ['X']]
        (apply_neon_effect_tokens 0 1 (fun _ => none) (fun _ => none)
          [formatDirective 10 20 30, ['X']])) := by
  have hw : ∀ t ∈ ([formatDirective 10 20 30, ['X']] : List (List Char)), wellFormedTok t := by
    intro t ht
    simp only [List.mem_cons, List.not_mem_nil, or_false] at ht
    rcases ht with rfl | rfl
    · intro _
      exact ⟨(10, 20, 30), ⟨by norm_num, by norm_num, by norm_num, by norm_num,
        by norm_num, by norm_num⟩, rfl⟩
    · intro hp
      exact absurd hp (by decide)
  have hf : ∀ i : ℕ, 4 / 5 ≤ (fun _ : ℕ => (1 : ℚ)) i ∧ (fun _ : ℕ => (1 : ℚ)) i ≤ 6 / 5 :=
    fun i => ⟨by norm_num, by norm_num⟩
  exact ⟨hw, hf, claim_C5_structural_stability [formatDirective 10 20 30, ['X']] hw 0 1 []
    (fun _ => ⟨0, 0, 0, 0, 0⟩) (fun _ => 1) (fun _ => false) (fun _ => 1) hf 1
    (fun _ => none) (fun _ => none)⟩

/-- Pass-through of one output token against its input: a token that looks
like a color directive but whose payload does not parse is left unchanged. -/
def passThroughTok (t u : List Char) : Prop :=
  colorDirHead.isPrefixOf t = true → parsePayload t = none → u = t

theorem recolorTok_passThrough (f : ℤ → ℤ → ℤ → ℤ × ℤ × ℤ) (t : List Char) :
    passThroughTok t (recolorTok f t) := by
  intro hp hn
  simp only [recolorTok, if_pos hp, hn]

/-- C9: for every effect transform and every row (and every outcome of the
random draws), the transforms are total and token-by-token: a token that
begins like a color directive but whose payload does not parse as three
semicolon-separated integers comes out byte-identical at its position, and
the output has exactly one token per input token. -/
theorem claim_C9_malformed_token_pass_through (tokens : List (List Char))
    (shiftDeg : ℕ → ℚ) (zones : List GlitchZone) (draw : ℕ → GlitchDraw)
    (row total : ℕ) (u : ℕ → ℚ) (hi : ℕ → Bool) (flicker : ℕ → ℚ)
    (pulse : ℚ) (glow : ℕ → Option ℚ) (bleed : ℕ → Option (Fin 3)) :
    List.Forall₂ passThroughTok tokens (apply_rainbow_wave_tokens shiftDeg tokens) ∧
    List.Forall₂ passThroughTok tokens (apply_glitch_effect_tokens zones draw tokens) ∧
    List.Forall₂ passThroughTok tokens (apply_matrix_effect_tokens row total u hi tokens) ∧
    List.Forall₂ passThroughTok tokens (apply_fire_effect_tokens row total flicker tokens) ∧
    List.Forall₂ passThroughTok tokens (apply_neon_effect_tokens row pulse glow bleed tokens) := by
  refine ⟨?_, ?_, ?_, ?_, ?_⟩
  · exact mapEnumFrom_forall₂ tokens (fun i t _ => recolorTok_passThrough _ t) 0
  · unfold apply_glitch_effect_tokens
    refine mapEnumFrom_forall₂ tokens (fun i t _ => ?_) 0
    cases hz : zoneAt zones i with
    | some z => exact recolorTok_passThrough _ t
    | none => exact fun _ _ => rfl
  · exact mapEnumFrom_forall₂ tokens (fun i t _ => recolorTok_passThrough _ t) 0
  · exact mapEnumFrom_forall₂ tokens (fun i t _ => recolorTok_passThrough _ t) 0
  · exact mapEnumFrom_forall₂ tokens (fun i t _ => recolorTok_passThrough _ t) 0

/-- C8 fails on the code: the all-black directive is rewritten by the neon
transform (row 0, no glow, no bleed draws) to the all-black directive, with
channel sum 0 below the claimed floor of 240 — the boost multiplies the
zero channels and leaves them zero. -/
theorem claim_C8_counterexample :
    apply_neon_effect_tokens 0 1 (fun _ => none) (fun _ => none) [formatDirective 0 0 0] =
      [formatDirective 0 0 0] ∧ ¬(240 ≤ (0 : ℤ) + 0 + 0) := by
  have h0 : (0 : ℤ) ≤ 0 := le_refl 0
  have h255 : (0 : ℤ) ≤ 255 := by norm_num
  have hparse := parsePayload_formatDirective h0 h255 h0 h255 h0 h255
  have hafter := afterM_formatDirective h0 h255 h0 h255 h0 h255
  have hpre : colorDirHead.isPrefixOf (formatDirective 0 0 0) = true := by decide
  have hval : neonRecolor 0 1 none none 0 0 0 = (0, 0, 0) := by
    simp only [neonRecolor, neonPaletteWeights, neonFloorClamp, neonBoost]
    norm_num [pyInt_eq]
  constructor
  · simp only [apply_neon_effect_tokens, mapEnumFrom, recolorTok, if_pos hpre, hparse,
      hval, hafter, List.append_nil]
  · norm_num

/-- C8 amended: the neon brightness-floor step scales channels by
240/max(1, r+g+b) with truncating multiplication and clamps to [0, 255];
each output channel lies in [0, 255], the output channel sum is at least
238 whenever the pre-floor sum is at least 1 (truncation can lose up to 2
below the claimed 240), and an all-zero cell stays (0, 0, 0), so 240 is
not a guaranteed floor. -/
theorem claim_C8_amended (r g b : ℤ) (hr : 0 ≤ r) (hg : 0 ≤ g) (hb : 0 ≤ b) :
    chanBounds (neonFloorClamp r g b) ∧
    (1 ≤ r + g + b →
      238 ≤ (neonFloorClamp r g b).1 + (neonFloorClamp r g b).2.1 +
        (neonFloorClamp r g b).2.2) ∧
    (r + g + b = 0 → neonFloorClamp r g b = (0, 0, 0)) := by
  refine ⟨neonFloorClamp_bounds r g b, ?_, ?_⟩
  · intro hs1
    by_cases hlt : r + g + b < 240
    · have hmax : (max 1 (r + g + b) : ℤ) = r + g + b := max_eq_right hs1
      have hB : neonBoost (r + g + b) = 240 / ((r + g + b : ℤ) : ℚ) := by
        rw [neonBoost, hmax]
      have hSpos : (0 : ℚ) < ((r + g + b : ℤ) : ℚ) := by
        exact_mod_cast (by omega : (0 : ℤ) < r + g + b)
      have hB0 : 0 ≤ neonBoost (r + g + b) := by rw [hB]; positivity
      have hr' : (0 : ℚ) ≤ (r : ℚ) := by exact_mod_cast hr
      have hg' : (0 : ℚ) ≤ (g : ℚ) := by exact_mod_cast hg
      have hb' : (0 : ℚ) ≤ (b : ℚ) := by exact_mod_cast hb
      have e1 : pyInt ((r : ℚ) * neonBoost (r + g + b)) =
          ⌊(r : ℚ) * neonBoost (r + g + b)⌋ := pyInt_of_nonneg (mul_nonneg hr' hB0)
      have e2 : pyInt ((g : ℚ) * neonBoost (r + g + b)) =
          ⌊(g : ℚ) * neonBoost (r + g + b)⌋ := pyInt_of_nonneg (mul_nonneg hg' hB0)
      have e3 : pyInt ((b : ℚ) * neonBoost (r + g + b)) =
          ⌊(b : ℚ) * neonBoost (r + g + b)⌋ := pyInt_of_nonneg (mul_nonneg hb' hB0)
      have l1 := Int.sub_one_lt_floor ((r : ℚ) * neonBoost (r + g + b))
      have l2 := Int.sub_one_lt_floor ((g : ℚ) * neonBoost (r + g + b))
      have l3 := Int.sub_one_lt_floor ((b : ℚ) * neonBoost (r + g + b))
      have f1 : 0 ≤ ⌊(r : ℚ) * neonBoost (r + g + b)⌋ :=
        Int.floor_nonneg.mpr (mul_nonneg hr' hB0)
      have f2 : 0 ≤ ⌊(g : ℚ) * neonBoost (r + g + b)⌋ :=
        Int.floor_nonneg.mpr (mul_nonneg hg' hB0)
      have f3 : 0 ≤ ⌊(b : ℚ) * neonBoost (r + g + b)⌋ :=
        Int.floor_nonneg.mpr (mul_nonneg hb' hB0)
      have hsum : (r : ℚ) * neonBoost (r + g + b) + (g : ℚ) * neonBoost (r + g + b) +
          (b : ℚ) * neonBoost (r + g + b) = 240 := by
        rw [hB]
        rw [show (r : ℚ) * (240 / ((r + g + b : ℤ) : ℚ)) +
            (g : ℚ) * (240 / ((r + g + b : ℤ) : ℚ)) +
            (b : ℚ) * (240 / ((r + g + b : ℤ) : ℚ)) =
            ((r : ℚ) + (g : ℚ) + (b : ℚ)) * 240 / ((r + g + b : ℤ) : ℚ) from by ring]
        rw [show (r : ℚ) + (g : ℚ) + (b : ℚ) = ((r + g + b : ℤ) : ℚ) from by push_cast; ring]
        rw [mul_comm, mul_div_assoc, div_self (ne_of_gt hSpos), mul_one]
      have h237 : (237 : ℚ) <
          ((⌊(r : ℚ) * neonBoost (r + g + b)⌋ + ⌊(g : ℚ) * neonBoost (r + g + b)⌋ +
            ⌊(b : ℚ) * neonBoost (r + g + b)⌋ : ℤ) : ℚ) := by
        push_cast
        linarith
      have h238 : 238 ≤ ⌊(r : ℚ) * neonBoost (r + g + b)⌋ +
          ⌊(g : ℚ) * neonBoost (r + g + b)⌋ + ⌊(b : ℚ) * neonBoost (r + g + b)⌋ := by
        have := (by exact_mod_cast h237 : (237 : ℤ) < ⌊(r : ℚ) * neonBoost (r + g + b)⌋ +
          ⌊(g : ℚ) * neonBoost (r + g + b)⌋ + ⌊(b : ℚ) * neonBoost (r + g + b)⌋)
        omega
      simp only [neonFloorClamp, if_pos hlt]
      rw [e1, e2, e3]
      omega
    · simp only [neonFloorClamp, if_neg hlt]
      omega
  · intro hs0
    obtain ⟨rfl, rfl, rfl⟩ : r = 0 ∧ g = 0 ∧ b = 0 := by omega
    simp only [neonFloorClamp, neonBoost]
    norm_num [pyInt_eq]

/-- Witness for C8 amended at the pre-floor channels (79, 80, 80), where
the output sum is 239, between the amended floor 238 and the claimed 240. -/
theorem claim_C8_amended_witness :
    ((0 : ℤ) ≤ 79 ∧ (0 : ℤ) ≤ 80 ∧ (0 : ℤ) ≤ 80) ∧
    (chanBounds (neonFloorClamp 79 80 80) ∧
      (1 ≤ (79 : ℤ) + 80 + 80 →
        238 ≤ (neonFloorClamp 79 80 80).1 + (neonFloorClamp 79 80 80).2.1 +
          (neonFloorClamp 79 80 80).2.2) ∧
      ((79 : ℤ) + 80 + 80 = 0 → neonFloorClamp 79 80 80 = (0, 0, 0))) :=
  ⟨⟨by norm_num, by norm_num, by norm_num⟩,
    claim_C8_amended 79 80 80 (by norm_num) (by norm_num) (by norm_num)⟩
